import Mathlib

/-!
Verification of the staged document-editing core of the KPTools Expansion
Airdrop Loot Builder (two application variants, v1.8 and v2.0).

The Python source is shallowly embedded: numeric JSON values are modelled as
rationals, dictionaries as functions into Option, lists as Lean lists.
Namespace V18 embeds ExpansionAirdropLootBuilder_v1_8.py, namespace V20 embeds
ExpansionAirdropLootBuilder_v2_0.py.
-/

/-- Parses a list of decimal digit characters into a natural number, failing on
any non-digit. Empty input fails. -/
def parseDigits : List Char → Option Nat
  | [] => none
  | cs =>
    cs.foldl
      (fun acc c =>
        match acc with
        | none => none
        | some n => if c.isDigit then some (10 * n + (c.toNat - 48)) else none)
      (some 0)

/-- Splits a character list at the first dot; returns the part before it and,
when a dot was found, the part after it. -/
def breakDot : List Char → List Char × Option (List Char)
  | [] => ([], none)
  | c :: cs =>
    if c = '.' then ([], some cs)
    else
      let r := breakDot cs
      (c :: r.1, r.2)

/-- Python str.strip(): removes leading and trailing whitespace. -/
def pyStrip (s : String) : String :=
  ⟨(((s.data.dropWhile Char.isWhitespace).reverse).dropWhile Char.isWhitespace).reverse⟩

/-- Model of the Python float(s) conversion, restricted to the literal forms
the application exercises: surrounding whitespace, an optional leading minus
sign, decimal digits and an optional fractional part. Exponents, infinities
and underscores are outside the model and simply fail to parse, exactly like
any other non-numeric string. -/
def pyFloat (s : String) : Option ℚ :=
  let cs := (pyStrip s).data
  let neg := cs.head? = some '-'
  let body := if neg then cs.tail else cs
  match breakDot body with
  | (w, none) => (parseDigits w).map (fun n => if neg then -(n : ℚ) else (n : ℚ))
  | (w, some f) =>
    if f.contains '.' then none
    else if w.isEmpty && f.isEmpty then none
    else
      match (if w.isEmpty then some 0 else parseDigits w),
            (if f.isEmpty then some 0 else parseDigits f) with
      | some wn, some fn =>
        let mag : ℚ := (wn : ℚ) + (fn : ℚ) / ((10 : ℚ) ^ f.length)
        some (if neg then -mag else mag)
      | _, _ => none

/-- Model of the Python int(s) conversion on a string: surrounding whitespace,
an optional minus sign and decimal digits only; any fractional or non-numeric
text raises (none). -/
def pyIntStr (s : String) : Option ℤ :=
  match (pyStrip s).data with
  | '-' :: rest => (parseDigits rest).map (fun n => -(n : ℤ))
  | cs => (parseDigits cs).map (fun n => (n : ℤ))

/-- Python str.lower(), restricted to ASCII case mapping (the classnames the
application handles are ASCII identifiers). -/
def pyLower (s : String) : String :=
  ⟨s.data.map Char.toLower⟩

/-- Truncation toward zero, the semantics of the Python int(float) conversion
applied to a finite float value. -/
def qTrunc (q : ℚ) : ℤ := if 0 ≤ q then ⌊q⌋ else ⌈q⌉

theorem qTrunc_intCast (n : ℤ) : qTrunc (n : ℚ) = n := by
  unfold qTrunc
  by_cases h : (0 : ℚ) ≤ (n : ℚ)
  · simp [h]
  · simp [h]

namespace V18

/-- Python: def safe_float(s, default=0.0): try: return float(s) except: return default -/
def safe_float (s : String) (default : ℚ) : ℚ :=
  (pyFloat s).getD default

/-- Python: def safe_int(s, default=0): try: return int(float(s)) except: return default -/
def safe_int (s : String) (default : ℤ) : ℤ :=
  ((pyFloat s).map qTrunc).getD default

/-- A loot entry of the v1.8 Airdrop document. Numeric JSON fields are
modelled as rationals; Option models a field that may be absent from the
underlying JSON object. -/
structure LootEntry where
  name : String
  chance : Option ℚ
  min : Option ℤ
  max : Option ℤ
  quantityPercent : Option ℚ
  attachments : List String
  variants : List String
deriving DecidableEq

/-- Python default_loot_entry: the entry appended when a classname is added
from the catalog. -/
def default_loot_entry (classname : String) : LootEntry :=
  { name := classname
    chance := some (1 / 10)
    attachments := []
    quantityPercent := some (-1)
    max := some (-1)
    min := some 0
    variants := [] }

/-- A container of the v1.8 Airdrop document ("Container" is the identifying
name key in this schema). Option models JSON keys that may be absent. -/
structure Container where
  container : String
  itemCount : Option ℤ
  infectedCount : Option ℤ
  infected : Option Bool
  loot : List LootEntry
deriving DecidableEq

end V18

namespace V20

/-- Python v2.0: def safe_int(val, default=0): try: return int(val) except: return default.
All call sites pass strings; int(s) accepts only integer literals, so a
fractional or non-numeric string falls back to the default. -/
def safe_int (s : String) (default : ℤ) : ℤ :=
  (pyIntStr s).getD default

/-- A loot field value in v2.0: apply_loot_edit stores the raw input string
into the Chance field when float coercion fails, so the field is either a
number or a string. -/
inductive ChanceV where
  | num (q : ℚ)
  | str (s : String)
deriving DecidableEq

/-- A loot row of the v2.0 Airdrop document, in the shape
add_selected_item_to_loot creates and apply_loot_edit rewrites: Name, Chance,
Min, Max, QuantityPercent. No Attachments or Variants key is ever created by
v2.0. -/
structure LootRow where
  name : String
  chance : ChanceV
  min : ℤ
  max : ℤ
  quantityPercent : ℤ
deriving DecidableEq

/-- Python v2.0 add_selected_item_to_loot: the default loot row appended for a
selected classname. -/
def default_loot_row (classname : String) : LootRow :=
  { name := classname
    chance := .num 1
    min := 0
    max := 1
    quantityPercent := 0 }

end V20

/-! ## C1: save must not overwrite the original file without a backup

The disk effect of save_airdrop is modelled as a transition on the contents of
the document path and its backup path. Backup (shutil.copy2) and write
(open + json.dump) are modelled as atomic steps that either succeed or raise,
selected by the backupOk and writeOk flags. -/

/-- Contents of the document path and of the timestamped backup path. -/
structure Disk where
  main : Option String
  backup : Option String
deriving DecidableEq

namespace V18

/-- Python v1.8 save_airdrop, disk effect: shutil.copy2 to the timestamped
backup name; on exception the handler shows an error and returns before the
file is opened for writing. Only on backup success is the document written.
(The in-memory commit of pending container settings happens before the backup
attempt but touches no file.) -/
def save_airdrop (d : Disk) (payload : String) (backupOk writeOk : Bool) : Disk :=
  if backupOk then
    let d1 : Disk := { d with backup := d.main }
    if writeOk then { d1 with main := some payload } else d1
  else
    d

end V18

namespace V20

/-- Python v2.0 save_airdrop, disk effect: the backup attempt is wrapped in
try/except with the handler setting bak = None, after which the code proceeds
to open the document path for writing unconditionally. -/
def save_airdrop (d : Disk) (payload : String) (backupOk writeOk : Bool) : Disk :=
  let d1 : Disk := if backupOk then { d with backup := d.main } else d
  if writeOk then { d1 with main := some payload } else d1

end V20

/-- C1 counterexample: in v2.0, with an existing file on disk and a failing
backup, save_airdrop still overwrites the original; no backup exists
afterwards. This refutes the claim that for every save operation a backup
failure aborts the save before any write. -/
theorem c1_counterexample :
    V20.save_airdrop { main := some "old", backup := none } "new" false true
      = { main := some "new", backup := none } := by
  decide

/-- C1 (amended): in v1.8, a failed backup aborts save_airdrop before any
write, leaving the disk untouched; in v2.0, the write proceeds regardless of
whether the backup succeeded, so on a successful write the original content is
replaced even when no backup was made. -/
theorem c1_backup_abort (d : Disk) (payload : String) (writeOk backupOk : Bool) :
    V18.save_airdrop d payload false writeOk = d
      ∧ (V20.save_airdrop d payload backupOk true).main = some payload := by
  constructor
  · simp [V18.save_airdrop]
  · by_cases h : backupOk <;> simp [V20.save_airdrop, h]

/-! ## C4: default loot-entry field values -/

/-- C4 counterexample: the v2.0 default loot row does not carry the documented
defaults: Chance is 1.0 rather than 0.10, Max is 1 rather than -1, and
QuantityPercent is 0 rather than -1 (and the row has no attachments or
variants fields at all). -/
theorem c4_counterexample :
    (V20.default_loot_row "AKM").chance ≠ .num (1 / 10)
      ∧ (V20.default_loot_row "AKM").max ≠ -1
      ∧ (V20.default_loot_row "AKM").quantityPercent ≠ -1 := by
  refine ⟨?_, by decide, by decide⟩
  intro h
  simp only [V20.default_loot_row, V20.ChanceV.num.injEq] at h
  norm_num at h

/-- C4 (amended): the v1.8 default_loot_entry has exactly the documented
defaults chance = 0.10, min = 0, max = -1, quantityPercent = -1, empty
attachments and variants; the v2.0 add_selected_item_to_loot row instead has
chance = 1.0, min = 0, max = 1, quantityPercent = 0 and carries no
attachments or variants fields. -/
theorem c4_default_entry (classname : String) :
    V18.default_loot_entry classname
        = { name := classname, chance := some (1 / 10), min := some 0,
            max := some (-1), quantityPercent := some (-1),
            attachments := [], variants := [] }
      ∧ V20.default_loot_row classname
        = { name := classname, chance := .num 1, min := 0, max := 1,
            quantityPercent := 0 } := by
  exact ⟨rfl, rfl⟩

/-! ## Staged container settings (v1.8)

v1.8 keeps pending container-level edits in the instance dict
pending_container_settings, keyed by the container position in the Containers
array. The dict is modelled as a function from positions to optional patches.
-/

namespace V18

/-- A staged patch for one container, as built by
_stash_pending_container_settings: ItemCount and InfectedCount are present only
when their entry boxes are non-empty; Infected is always present. -/
structure Patch where
  itemCount : Option ℤ
  infectedCount : Option ℤ
  infected : Bool
deriving DecidableEq

/-- The v1.8 state touched by the staged-settings operations: the Containers
array of the loaded document and the pending_container_settings dict. -/
structure AppState where
  containers : List Container
  pending : Nat → Option Patch

/-- Python _stash_pending_container_settings, patch construction: each field of
the patch is rebuilt from the stripped entry-box strings, an empty string
popping the field and a non-empty one storing safe_int of it; Infected is
always stored. (The dict this replaces holds no other keys, and since Infected
is always present the patch is always non-empty and always stored.) -/
def stash_settings (item_count_str infected_count_str : String)
    (infected_enabled : Bool) : Patch :=
  let ics := pyStrip item_count_str
  let infs := pyStrip infected_count_str
  { itemCount := if ics ≠ "" then some (safe_int ics 0) else none
    infectedCount := if infs ≠ "" then some (safe_int infs 0) else none
    infected := infected_enabled }

/-- Staging for the container at position idx (the current container):
pending_container_settings[idx] is replaced wholesale by the stashed patch. -/
def stage_at (st : AppState) (idx : Nat) (item_count_str infected_count_str : String)
    (infected_enabled : Bool) : AppState :=
  { st with
      pending := fun i =>
        if i = idx then some (stash_settings item_count_str infected_count_str infected_enabled)
        else st.pending i }

/-- Applying one patch to a container: for k, v in changes.items(): c[k] = v.
Fields absent from the patch leave the container's value untouched. -/
def apply_patch (c : Container) (p : Patch) : Container :=
  { c with
      itemCount := match p.itemCount with | some v => some v | none => c.itemCount
      infectedCount := match p.infectedCount with | some v => some v | none => c.infectedCount
      infected := some p.infected }

/-- Helper recursion for _commit_pending_container_settings_to_json: walks the
Containers array with its position, applying the pending patch of each
position that has one. This is extensionally the Python loop over the pending
dict items, since distinct keys touch distinct containers and out-of-range
keys are skipped. -/
def commit_walk (pending : Nat → Option Patch) : Nat → List Container → List Container
  | _, [] => []
  | i, c :: cs =>
    (match pending i with
      | some p => apply_patch c p
      | none => c) :: commit_walk pending (i + 1) cs

/-- Python _commit_pending_container_settings_to_json: writes every pending
patch whose key is still a valid position onto that container, then clears the
pending dict. -/
def commit_pending (st : AppState) : AppState :=
  { containers := commit_walk st.pending 0 st.containers
    pending := fun _ => none }

/-- Python remove_container, state effect: pending.pop(removed_idx), then
Containers.pop(removed_idx), then the remap loop rebuilding the pending dict
with keys below the removed position kept and keys above it shifted down by
one. -/
def remove_container (st : AppState) (removed_idx : Nat) : AppState :=
  let popped : Nat → Option Patch := fun i => if i = removed_idx then none else st.pending i
  { containers := st.containers.eraseIdx removed_idx
    pending := fun i => if i < removed_idx then popped i else popped (i + 1) }

end V18

namespace V20

/-- A v2.0 airdrop container ("Name" is the identifying key in this schema;
the alias-tolerant lookups m_ItemCount / m_InfectedCount are collapsed onto
the canonical field, which is what the code materializes going forward). -/
structure ContainerD where
  name : String
  itemCount : Option ℤ
  infectedCount : Option ℤ
  infected : Option Bool
  loot : List LootRow
deriving DecidableEq

/-- Python v2.0 _commit_container_settings_to_data, effect on the current
container: an empty (stripped) ItemCount entry pops the field (and its legacy
alias) from the container, a non-empty one writes safe_int of it; Infected is
always written; InfectedCount is treated like ItemCount. In v2.0 the staged
state is exactly the contents of the three entry widgets, so a commit writes
the last staged values. -/
def commit_container_settings (c : ContainerD)
    (item_count_str infected_count_str : String) (infected_enabled : Bool) : ContainerD :=
  let ic := pyStrip item_count_str
  let infc := pyStrip infected_count_str
  { c with
      itemCount := if ic = "" then none else some (safe_int ic 0)
      infected := some infected_enabled
      infectedCount := if infc = "" then none else some (safe_int infc 0) }

end V20

/-- getD after eraseIdx, below the erased position. -/
theorem getD_eraseIdx_of_lt {α : Type} :
    ∀ (l : List α) (r j : Nat) (d : α), j < r →
      (l.eraseIdx r).getD j d = l.getD j d := by
  intro l
  induction l with
  | nil => intro r j d _; rfl
  | cons a t ih =>
    intro r j d hj
    cases r with
    | zero => omega
    | succ r' =>
      cases j with
      | zero => rfl
      | succ j' =>
        simp only [List.eraseIdx, List.getD_cons_succ]
        exact ih r' j' d (by omega)

/-- getD after eraseIdx, at or above the erased position. -/
theorem getD_eraseIdx_of_ge {α : Type} :
    ∀ (l : List α) (r j : Nat) (d : α), r ≤ j →
      (l.eraseIdx r).getD j d = l.getD (j + 1) d := by
  intro l
  induction l with
  | nil => intro r j d _; rfl
  | cons a t ih =>
    intro r j d hr
    cases r with
    | zero => rfl
    | succ r' =>
      cases j with
      | zero => omega
      | succ j' =>
        simp only [List.eraseIdx, List.getD_cons_succ]
        exact ih r' j' d (by omega)

/-- The dummy container used to state positional lookups. -/
def dummyContainer : V18.Container :=
  { container := "", itemCount := none, infectedCount := none, infected := none, loot := [] }

/-- C2 counterexample: pending patches are keyed by array position, not by a
stable container handle. With containers A, B, C and a patch staged under key
2 (container C), removing the container at position 0 leaves no patch under
key 2 any more: the patch has moved to key 1. A staging layer keyed by
container identity would have kept the patch under the same key. -/
theorem c2_counterexample :
    let stA : V18.Container :=
      { container := "A", itemCount := none, infectedCount := none, infected := none, loot := [] }
    let stB : V18.Container :=
      { container := "B", itemCount := none, infectedCount := none, infected := none, loot := [] }
    let stC : V18.Container :=
      { container := "C", itemCount := none, infectedCount := none, infected := none, loot := [] }
    let p : V18.Patch := { itemCount := some 7, infectedCount := none, infected := true }
    let st : V18.AppState :=
      { containers := [stA, stB, stC]
        pending := fun i => if i = 2 then some p else none }
    st.pending 2 = some p
      ∧ (V18.remove_container st 0).pending 2 = none
      ∧ (V18.remove_container st 0).pending 1 = some p := by
  exact ⟨rfl, rfl, rfl⟩

/-- C2 (amended): v1.8 keys pending container patches by array position, but
remove_container remaps every key above the removed position down by one, so
after any single removal each surviving container carries exactly the patch
that was staged for it: the container found at the shifted position is the
very container that sat at position j before, and the pending patch at the
shifted position is the patch that was staged under j. -/
theorem c2_remap_preserves_attachment (st : V18.AppState) (r j : Nat)
    (hr : r < st.containers.length) (hj : j < st.containers.length) (hne : j ≠ r) :
    ((V18.remove_container st r).containers.getD (if j < r then j else j - 1) dummyContainer
        = st.containers.getD j dummyContainer)
      ∧ (V18.remove_container st r).pending (if j < r then j else j - 1) = st.pending j := by
  by_cases hlt : j < r
  · simp only [if_pos hlt]
    refine ⟨getD_eraseIdx_of_lt st.containers r j dummyContainer hlt, ?_⟩
    simp only [V18.remove_container, if_pos hlt]
    have : j ≠ r := by omega
    simp [this]
  · have hgt : r < j := by omega
    simp only [if_neg hlt]
    constructor
    · have h1 : (st.containers.eraseIdx r).getD (j - 1) dummyContainer
          = st.containers.getD (j - 1 + 1) dummyContainer :=
        getD_eraseIdx_of_ge st.containers r (j - 1) dummyContainer (by omega)
      have h2 : j - 1 + 1 = j := by omega
      rw [h2] at h1
      exact h1
    · simp only [V18.remove_container]
      have hnotlt : ¬ (j - 1 < r) := by omega
      simp only [if_neg hnotlt]
      have h2 : j - 1 + 1 = j := by omega
      rw [h2]
      simp [hne]

/-- C2 witness: the amended theorem at the counterexample state, removing
position 0 and following container C from position 2 to position 1. -/
theorem c2_remap_preserves_attachment_witness :
    let stA : V18.Container :=
      { container := "A", itemCount := none, infectedCount := none, infected := none, loot := [] }
    let stC : V18.Container :=
      { container := "C", itemCount := none, infectedCount := none, infected := none, loot := [] }
    let p : V18.Patch := { itemCount := some 7, infectedCount := none, infected := true }
    let st : V18.AppState :=
      { containers := [stA, stC]
        pending := fun i => if i = 1 then some p else none }
    ((V18.remove_container st 0).containers.getD 0 dummyContainer
        = st.containers.getD 1 dummyContainer)
      ∧ (V18.remove_container st 0).pending 0 = st.pending 1 := by
  intro stA stC p st
  have h := c2_remap_preserves_attachment st 0 1 (by decide) (by decide) (by decide)
  simpa using h

/-! ## C3 / C7: adding and cloning containers -/

namespace V18

/-- Python duplicate_container (and the identical core of add_container_clone),
document effect: collect the existing Container names; if the new name is
already present (exact, case-sensitive set membership), warn and return with
no mutation (modelled as none); otherwise append a deep copy of the source
container with its Container key rewritten to the new name and, when the user
chose to start empty, its Loot cleared. The copy is made by a json
round-trip (json.loads(json.dumps(src))), a genuine deep copy, which justifies
the value semantics of the embedding. -/
def duplicate_container (containers : List Container) (src_idx : Nat)
    (new_name : String) (clear_loot : Bool) : Option (List Container) :=
  match containers.get? src_idx with
  | none => none
  | some src =>
    if new_name ∈ containers.map (fun c => c.container) then
      none
    else
      let clone : Container :=
        { src with
            container := new_name
            loot := if clear_loot then [] else src.loot }
      some (containers ++ [clone])

/-- Replacing the Loot list of a container: the shape of every later mutation
of a cloned container's loot. -/
def set_loot (c : Container) (l : List LootEntry) : Container :=
  { c with loot := l }

end V18

namespace V20

/-- Python v2.0 clone_airdrop, document effect: a deep copy (json round-trip)
of the current container with its Name rewritten is appended to the container
list. No name-conflict check of any kind is performed. -/
def clone_airdrop (containers : List ContainerD) (cur_idx : Nat)
    (new_name : String) : List ContainerD :=
  match containers.get? cur_idx with
  | none => containers
  | some c => containers ++ [{ c with name := new_name }]

end V20

/-- Setting the element right after a list leaves the list itself intact. -/
theorem set_append_singleton {α : Type} :
    ∀ (l : List α) (c x : α), (l ++ [c]).set l.length x = l ++ [x] := by
  intro l
  induction l with
  | nil => intro c x; rfl
  | cons a t ih =>
    intro c x
    simp only [List.cons_append, List.length_cons, List.set_cons_succ]
    rw [ih]

/-- C3 counterexample: in v2.0, cloning the only container (named "Heli_Crash")
under the very name "Heli_Crash" is not rejected: the document mutates and now
holds two containers with the same name. -/
theorem c3_counterexample :
    let c : V20.ContainerD :=
      { name := "Heli_Crash", itemCount := none, infectedCount := none,
        infected := none, loot := [] }
    (V20.clone_airdrop [c] 0 "Heli_Crash").map (fun x => x.name)
      = ["Heli_Crash", "Heli_Crash"] := by
  decide

/-- C3 (amended): in v1.8, adding a container by cloning under a name that
already occurs among the current container names (case-sensitive exact match)
is rejected synchronously with no mutation (duplicate_container returns none,
in particular the container list is not touched); in v2.0, clone_airdrop
performs no name-conflict check and appends the clone regardless, growing the
list by one even when the name already exists. -/
theorem c3_name_conflict (cs18 : List V18.Container) (i : Nat) (nm : String)
    (cl : Bool) (hdup : nm ∈ cs18.map (fun c => c.container))
    (cs20 : List V20.ContainerD) (j : Nat) (c20 : V20.ContainerD)
    (hj : cs20.get? j = some c20) (nm20 : String) :
    V18.duplicate_container cs18 i nm cl = none
      ∧ (V20.clone_airdrop cs20 j nm20).length = cs20.length + 1 := by
  constructor
  · unfold V18.duplicate_container
    cases h : cs18.get? i with
    | none => rfl
    | some src => simp [hdup]
  · unfold V20.clone_airdrop
    rw [hj]
    simp

/-- C3 witness: two one-container documents; the v1.8 duplicate of "A" under
the existing name "A" is rejected without mutation, while the v2.0 clone of
"B" under "B" appends anyway. -/
theorem c3_name_conflict_witness :
    let cA : V18.Container :=
      { container := "A", itemCount := none, infectedCount := none,
        infected := none, loot := [] }
    let cB : V20.ContainerD :=
      { name := "B", itemCount := none, infectedCount := none,
        infected := none, loot := [] }
    V18.duplicate_container [cA] 0 "A" true = none
      ∧ (V20.clone_airdrop [cB] 0 "B").length = [cB].length + 1 := by
  intro cA cB
  exact c3_name_conflict [cA] 0 "A" true (by decide) [cB] 0 cB (by decide) "B"

/-- C7: cloning with copyLoot = false (v1.8 duplicate_container with
clear_loot; v2.0 has no copyLoot-false path, its clone always copies the
loot). The new document is the old one with a fresh container appended whose
Container name is the new name and whose Loot is empty; and because the clone
is a deep copy, replacing the clone's loot afterwards (List.set at its
position) leaves every pre-existing container, in particular the source,
exactly as it was. -/
theorem c7_clone_empty_loot_independent (cs : List V18.Container) (i : Nat)
    (src : V18.Container) (hi : cs.get? i = some src) (nm : String)
    (hfresh : nm ∉ cs.map (fun c => c.container)) :
    V18.duplicate_container cs i nm true
        = some (cs ++ [{ src with container := nm, loot := [] }])
      ∧ (∀ lootNew : List V18.LootEntry,
          ((cs ++ [{ src with container := nm, loot := [] }]).set cs.length
              (V18.set_loot { src with container := nm, loot := [] } lootNew)).take cs.length
            = cs) := by
  constructor
  · unfold V18.duplicate_container
    rw [hi]
    simp [hfresh]
  · intro lootNew
    rw [set_append_singleton]
    simp

/-- C7 witness: a document with one container "Heli_Crash" holding one loot
entry, cloned to "Drop_A" with loot cleared; mutating the clone's loot leaves
the original untouched. -/
theorem c7_clone_empty_loot_independent_witness :
    let e : V18.LootEntry :=
      { name := "AKM", chance := some (1 / 10), min := some 0, max := some (-1),
        quantityPercent := some (-1), attachments := [], variants := [] }
    let heli : V18.Container :=
      { container := "Heli_Crash", itemCount := some 15, infectedCount := none,
        infected := some true, loot := [e] }
    V18.duplicate_container [heli] 0 "Drop_A" true
        = some [heli, { heli with container := "Drop_A", loot := [] }]
      ∧ (([heli, { heli with container := "Drop_A", loot := [] }]).set 1
            (V18.set_loot { heli with container := "Drop_A", loot := [] } [e])).take 1
          = [heli] := by
  intro e heli
  have h := c7_clone_empty_loot_independent [heli] 0 heli rfl "Drop_A" (by
    intro hmem
    simp at hmem)
  exact ⟨h.1, h.2 [e]⟩

/-! ## C5: numeric coercion failures in the loot editor -/

namespace V18

/-- Python apply_editor_to_selected, effect on the selected entry: the stripped
name must be non-empty (otherwise a warning is shown and nothing changes); if
a catalog is loaded and the name is unknown, the user must confirm (otherwise
nothing changes); then each numeric field is re-coerced from its entry box
with the entry's current value (or the creation default, when the key is
absent) as the fallback. none models the no-mutation returns. -/
def apply_editor_to_selected (entry : LootEntry)
    (name_str chance_str min_str max_str qty_str : String)
    (meta_nonempty name_known confirm_unknown : Bool) : Option LootEntry :=
  let name := pyStrip name_str
  if name = "" then none
  else if meta_nonempty && !name_known && !confirm_unknown then none
  else
    some { entry with
      name := name
      chance := some (safe_float chance_str (entry.chance.getD (1 / 10)))
      min := some (safe_int min_str (entry.min.getD 0))
      max := some (safe_int max_str (entry.max.getD (-1)))
      quantityPercent := some (safe_float qty_str (entry.quantityPercent.getD (-1))) }

end V18

namespace V20

/-- Python v2.0 apply_loot_edit, effect on the selected row: Name is the
stripped entry text; Chance is float(text) but on coercion failure the raw
text itself is stored; Min, Max and QuantityPercent are safe_int with the
constant fallbacks 0, 1 and 0 (v2.0 coerces QuantityPercent with int, so even
a fractional input falls back to 0). -/
def apply_loot_edit (row : LootRow)
    (name_str chance_str min_str max_str qty_str : String) : LootRow :=
  { row with
      name := pyStrip name_str
      chance := match pyFloat chance_str with
        | some q => .num q
        | none => .str chance_str
      min := safe_int min_str 0
      max := safe_int max_str 1
      quantityPercent := safe_int qty_str 0 }

end V20

/-- C5 counterexample: in v2.0, on a row whose committed Min is 5 and whose
committed Chance is 0.5, applying an edit whose Min and Chance boxes hold the
unparseable text "abc" does not keep the previous committed values: Min
becomes the fallback constant 0 and Chance becomes the raw string "abc". -/
theorem c5_counterexample :
    let row : V20.LootRow :=
      { name := "M4A1", chance := .num (1 / 2), min := 5, max := 10,
        quantityPercent := 3 }
    (V20.apply_loot_edit row "M4A1" "abc" "abc" "10" "3").min = 0
      ∧ row.min = 5
      ∧ (V20.apply_loot_edit row "M4A1" "abc" "abc" "10" "3").chance = .str "abc"
      ∧ row.chance = .num (1 / 2) := by
  refine ⟨by decide, rfl, ?_, rfl⟩
  rfl

/-- C5 (amended): in v1.8, when a numeric entry box fails coercion the edit is
applied without raising and every numeric field (Chance, Min, Max,
QuantityPercent) keeps its previous committed value; in v2.0, failed Min, Max
and QuantityPercent coercions fall back to the constants 0, 1 and 0, and a
failed Chance coercion stores the raw input string instead of the previous
value. -/
theorem c5_coercion_fallback (entry : V18.LootEntry)
    (name_str chance_str min_str max_str qty_str : String)
    (mn : Bool) (q : ℚ) (m x : ℤ) (qq : ℚ)
    (hname : pyStrip name_str ≠ "")
    (hchance : entry.chance = some q) (hmin : entry.min = some m)
    (hmax : entry.max = some x) (hqty : entry.quantityPercent = some qq)
    (hcf : pyFloat chance_str = none) (hmf : pyFloat min_str = none)
    (hxf : pyFloat max_str = none) (hqf : pyFloat qty_str = none)
    (row : V20.LootRow) (nS cS mS xS qS : String)
    (hcf2 : pyFloat cS = none) (hmf2 : pyIntStr mS = none)
    (hxf2 : pyIntStr xS = none) (hqf2 : pyIntStr qS = none) :
    ((V18.apply_editor_to_selected entry name_str chance_str min_str max_str qty_str
          mn true true).map (fun e => e.chance) = some (some q)
      ∧ (V18.apply_editor_to_selected entry name_str chance_str min_str max_str qty_str
          mn true true).map (fun e => e.min) = some (some m)
      ∧ (V18.apply_editor_to_selected entry name_str chance_str min_str max_str qty_str
          mn true true).map (fun e => e.max) = some (some x)
      ∧ (V18.apply_editor_to_selected entry name_str chance_str min_str max_str qty_str
          mn true true).map (fun e => e.quantityPercent) = some (some qq))
      ∧ ((V20.apply_loot_edit row nS cS mS xS qS).chance = .str cS
        ∧ (V20.apply_loot_edit row nS cS mS xS qS).min = 0
        ∧ (V20.apply_loot_edit row nS cS mS xS qS).max = 1
        ∧ (V20.apply_loot_edit row nS cS mS xS qS).quantityPercent = 0) := by
  constructor
  · unfold V18.apply_editor_to_selected
    simp only [if_neg hname]
    simp [V18.safe_float, V18.safe_int, hcf, hmf, hxf, hqf, hchance, hmin, hmax, hqty]
  · unfold V20.apply_loot_edit
    simp [hcf2, V20.safe_int, hmf2, hxf2, hqf2]

/-- C5 witness: a v1.8 entry with committed Chance 0.25, Min 2, Max -1 and
QuantityPercent -1 edited with unparseable "abc" boxes keeps all four values;
the v2.0 row edited with unparseable "xyz" boxes gets the string "xyz" for
Chance and the constants 0, 1, 0 for Min, Max, QuantityPercent. -/
theorem c5_coercion_fallback_witness :
    let entry : V18.LootEntry :=
      { name := "AKM", chance := some (1 / 4), min := some 2, max := some (-1),
        quantityPercent := some (-1), attachments := [], variants := [] }
    let row : V20.LootRow :=
      { name := "M4A1", chance := .num (1 / 2), min := 5, max := 10,
        quantityPercent := 3 }
    ((V18.apply_editor_to_selected entry "AKM" "abc" "abc" "abc" "abc"
          true true true).map (fun e => e.chance) = some (some (1 / 4))
      ∧ (V18.apply_editor_to_selected entry "AKM" "abc" "abc" "abc" "abc"
          true true true).map (fun e => e.min) = some (some 2)
      ∧ (V18.apply_editor_to_selected entry "AKM" "abc" "abc" "abc" "abc"
          true true true).map (fun e => e.max) = some (some (-1))
      ∧ (V18.apply_editor_to_selected entry "AKM" "abc" "abc" "abc" "abc"
          true true true).map (fun e => e.quantityPercent) = some (some (-1)))
      ∧ ((V20.apply_loot_edit row "M4A1" "xyz" "xyz" "xyz" "xyz").chance = .str "xyz"
        ∧ (V20.apply_loot_edit row "M4A1" "xyz" "xyz" "xyz" "xyz").min = 0
        ∧ (V20.apply_loot_edit row "M4A1" "xyz" "xyz" "xyz" "xyz").max = 1
        ∧ (V20.apply_loot_edit row "M4A1" "xyz" "xyz" "xyz" "xyz").quantityPercent = 0) := by
  intro entry row
  exact c5_coercion_fallback entry "AKM" "abc" "abc" "abc" "abc" true (1 / 4) 2 (-1) (-1)
    (by decide) rfl rfl rfl rfl (by decide) (by decide) (by decide) (by decide)
    row "M4A1" "xyz" "xyz" "xyz" "xyz"
    (by decide) (by decide) (by decide) (by decide)

/-! ## C6: empty string clears the override; last staged value is committed -/

/-- getD through commit_walk: the committed container at position j is the
original one patched with the pending entry of key j, when j is in range. -/
theorem commit_walk_getD (pending : Nat → Option V18.Patch) :
    ∀ (l : List V18.Container) (base j : Nat) (d : V18.Container), j < l.length →
      (V18.commit_walk pending base l).getD j d
        = (match pending (base + j) with
            | some p => V18.apply_patch (l.getD j d) p
            | none => l.getD j d) := by
  intro l
  induction l with
  | nil => intro base j d h; simp at h
  | cons c cs ih =>
    intro base j d h
    cases j with
    | zero => simp [V18.commit_walk]
    | succ j' =>
      have h' : j' < cs.length := by simpa using Nat.lt_of_succ_lt_succ h
      have := ih (base + 1) j' d h'
      simp only [V18.commit_walk, List.getD_cons_succ]
      rw [this]
      have harith : base + 1 + j' = base + (j' + 1) := by omega
      rw [harith]

/-- C6: staging empty ItemCount and InfectedCount strings stores a patch with
both numeric fields absent (distinct from zero overrides); staging the empty
strings and then concrete integer values v and vInf, then committing, writes
exactly v and vInf onto the container. The v2.0 commit path behaves the same
on its last staged widget state: an empty string removes the field, a string
denoting a concrete value writes exactly that value, for both ItemCount and
InfectedCount. -/
theorem c6_stage_empty_then_value (st : V18.AppState) (idx : Nat)
    (hidx : idx < st.containers.length)
    (s sInf : String) (en : Bool) (v vInf : ℤ)
    (hs : pyStrip s ≠ "") (hv : pyFloat (pyStrip s) = some (v : ℚ))
    (hsInf : pyStrip sInf ≠ "") (hvInf : pyFloat (pyStrip sInf) = some (vInf : ℚ))
    (c20 : V20.ContainerD) (s20 sInf20 : String) (en20 : Bool) (v20 vInf20 : ℤ)
    (hs20 : pyStrip s20 ≠ "") (hv20 : pyIntStr (pyStrip s20) = some v20)
    (hsInf20 : pyStrip sInf20 ≠ "") (hvInf20 : pyIntStr (pyStrip sInf20) = some vInf20) :
    ((V18.stage_at st idx "" "" en).pending idx
        = some { itemCount := none, infectedCount := none, infected := en }
      ∧ ((V18.commit_pending
            (V18.stage_at (V18.stage_at st idx "" "" en) idx s sInf en)).containers.getD
              idx dummyContainer).itemCount = some v
      ∧ ((V18.commit_pending
            (V18.stage_at (V18.stage_at st idx "" "" en) idx s sInf en)).containers.getD
              idx dummyContainer).infectedCount = some vInf)
      ∧ ((V20.commit_container_settings c20 "" "" en20).itemCount = none
        ∧ (V20.commit_container_settings c20 "" "" en20).infectedCount = none
        ∧ (V20.commit_container_settings c20 s20 sInf20 en20).itemCount = some v20
        ∧ (V20.commit_container_settings c20 s20 sInf20 en20).infectedCount = some vInf20) := by
  have hstrip_empty : pyStrip "" = "" := rfl
  have hlen : idx < (V18.stage_at (V18.stage_at st idx "" "" en) idx s sInf en).containers.length := by
    simpa [V18.stage_at] using hidx
  have hw := commit_walk_getD
    ((V18.stage_at (V18.stage_at st idx "" "" en) idx s sInf en).pending)
    ((V18.stage_at (V18.stage_at st idx "" "" en) idx s sInf en).containers)
    0 idx dummyContainer hlen
  have hpend : (V18.stage_at (V18.stage_at st idx "" "" en) idx s sInf en).pending (0 + idx)
      = some (V18.stash_settings s sInf en) := by
    simp [V18.stage_at, Nat.zero_add]
  have hitem : (V18.stash_settings s sInf en).itemCount = some v := by
    simp only [V18.stash_settings]
    rw [if_pos hs]
    simp [V18.safe_int, hv, qTrunc_intCast]
  have hinf : (V18.stash_settings s sInf en).infectedCount = some vInf := by
    simp only [V18.stash_settings]
    rw [if_pos hsInf]
    simp [V18.safe_int, hvInf, qTrunc_intCast]
  refine ⟨⟨?_, ?_, ?_⟩, ?_, ?_, ?_, ?_⟩
  · simp [V18.stage_at, V18.stash_settings, hstrip_empty]
  · simp only [V18.commit_pending]
    rw [hw, hpend]
    simp [V18.apply_patch, hitem]
  · simp only [V18.commit_pending]
    rw [hw, hpend]
    simp [V18.apply_patch, hinf]
  · simp [V20.commit_container_settings, hstrip_empty]
  · simp [V20.commit_container_settings, hstrip_empty]
  · simp [V20.commit_container_settings, if_neg hs20, V20.safe_int, hv20]
  · simp [V20.commit_container_settings, if_neg hsInf20, V20.safe_int, hvInf20]

/-- C6 witness: one container, ItemCount and InfectedCount staged to "" then
to "15" and "8", committed: exactly 15 and 8 are written; the v2.0 commit on
"" removes both fields and on "7" and "4" writes 7 and 4. -/
theorem c6_stage_empty_then_value_witness :
    let c : V18.Container :=
      { container := "Heli_Crash", itemCount := some 3, infectedCount := some 1,
        infected := some true, loot := [] }
    let st : V18.AppState := { containers := [c], pending := fun _ => none }
    let c20 : V20.ContainerD :=
      { name := "Drop", itemCount := some 9, infectedCount := some 2,
        infected := some true, loot := [] }
    ((V18.stage_at st 0 "" "" true).pending 0
        = some { itemCount := none, infectedCount := none, infected := true }
      ∧ ((V18.commit_pending
            (V18.stage_at (V18.stage_at st 0 "" "" true) 0 "15" "8" true)).containers.getD
              0 dummyContainer).itemCount = some 15
      ∧ ((V18.commit_pending
            (V18.stage_at (V18.stage_at st 0 "" "" true) 0 "15" "8" true)).containers.getD
              0 dummyContainer).infectedCount = some 8)
      ∧ ((V20.commit_container_settings c20 "" "" true).itemCount = none
        ∧ (V20.commit_container_settings c20 "" "" true).infectedCount = none
        ∧ (V20.commit_container_settings c20 "7" "4" true).itemCount = some 7
        ∧ (V20.commit_container_settings c20 "7" "4" true).infectedCount = some 4) := by
  intro c st c20
  have hv : pyFloat (pyStrip "15") = some ((15 : ℤ) : ℚ) := by
    have h1 : pyFloat (pyStrip "15") = some ((15 : ℕ) : ℚ) := rfl
    rw [h1]; norm_num
  have hvInf : pyFloat (pyStrip "8") = some ((8 : ℤ) : ℚ) := by
    have h1 : pyFloat (pyStrip "8") = some ((8 : ℕ) : ℚ) := rfl
    rw [h1]; norm_num
  have hv20 : pyIntStr (pyStrip "7") = some (7 : ℤ) := by
    have h1 : pyIntStr (pyStrip "7") = some ((7 : ℕ) : ℤ) := rfl
    rw [h1]; norm_num
  have hvInf20 : pyIntStr (pyStrip "4") = some (4 : ℤ) := by
    have h1 : pyIntStr (pyStrip "4") = some ((4 : ℕ) : ℤ) := rfl
    rw [h1]; norm_num
  exact c6_stage_empty_then_value st 0 (by decide) "15" "8" true 15 8
    (by decide) hv (by decide) hvInf
    c20 "7" "4" true 7 4 (by decide) hv20 (by decide) hvInf20

/-! ## C8 / C10: market entries (v2.0 only) -/

namespace V20

/-- A market entry in the shape market_add_selected_from_types creates and
market_apply_edit maintains. -/
structure MarketEntry where
  className : String
  maxPriceThreshold : ℤ
  minPriceThreshold : ℤ
  sellPricePercent : ℤ
  maxStockThreshold : ℤ
  minStockThreshold : ℤ
  quantityPercent : ℤ
  spawnAttachments : List String
  variants : List String
deriving DecidableEq

/-- The enumeration loop of _market_find_index_by_class: first row whose
lowercased ClassName equals the lowercased target. -/
def market_find_aux (target : String) : Nat → List MarketEntry → Option Nat
  | _, [] => none
  | i, row :: rest =>
    if pyLower row.className = target then some i
    else market_find_aux target (i + 1) rest

/-- Python v2.0 _market_find_index_by_class: case-insensitive lookup of a
classname among the Items of the market document, returning the index of the
first match. -/
def market_find_index_by_class (items : List MarketEntry) (classname : String) :
    Option Nat :=
  market_find_aux (pyLower classname) 0 items

/-- Python v2.0 market_add_selected_from_types, document effect: if the
(case-insensitive) lookup finds the classname, an "Already Exists" info box is
shown and the Items list is returned untouched; otherwise a new entry built
from the price/stock entry boxes is appended. -/
def market_add_selected_from_types (items : List MarketEntry) (classname : String)
    (minp_str maxp_str minst_str maxst_str : String) : List MarketEntry :=
  match market_find_index_by_class items classname with
  | some _ => items
  | none =>
    let maxp := safe_int maxp_str 10
    let minp := safe_int minp_str (max 1 (maxp.fdiv 2))
    let maxst := safe_int maxst_str 100
    let minst := safe_int minst_str 0
    items ++ [{ className := classname
                maxPriceThreshold := maxp
                minPriceThreshold := minp
                sellPricePercent := -1
                maxStockThreshold := maxst
                minStockThreshold := minst
                quantityPercent := -1
                spawnAttachments := []
                variants := [] }]

/-- Python v2.0 market_remove_selected, document effect: the row is looked up
by classname through the same case-insensitive finder and the first match is
deleted. -/
def market_remove_selected (items : List MarketEntry) (classname : String) :
    List MarketEntry :=
  match market_find_index_by_class items classname with
  | some i => items.eraseIdx i
  | none => items

/-- Python v2.0 market_apply_edit, document effect: the stripped Class box
must be non-empty (otherwise an info box is shown and nothing changes); the
entry is looked up through the same case-insensitive finder and, when found,
the first matching row is rewritten in place: ClassName becomes the stripped
box text and the four thresholds are re-coerced with the constant fallbacks
5, 10, 0 and 100. The setdefault calls for SellPricePercent, QuantityPercent,
SpawnAttachments and Variants keep present values untouched, and in this
model those fields are always present, so the row keeps them. -/
def market_apply_edit (items : List MarketEntry)
    (class_str minp_str maxp_str minst_str maxst_str : String) : List MarketEntry :=
  let classname := pyStrip class_str
  if classname = "" then items
  else
    match market_find_index_by_class items classname with
    | none => items
    | some i =>
      match items.get? i with
      | none => items
      | some row =>
        items.set i
          { row with
              className := classname
              minPriceThreshold := safe_int minp_str 5
              maxPriceThreshold := safe_int maxp_str 10
              minStockThreshold := safe_int minst_str 0
              maxStockThreshold := safe_int maxst_str 100 }

end V20

/-- The find loop returns some index as soon as any row matches
case-insensitively. -/
theorem market_find_aux_isSome (target : String) :
    ∀ (l : List V20.MarketEntry) (base : Nat) (r : V20.MarketEntry),
      r ∈ l → pyLower r.className = target →
      (V20.market_find_aux target base l).isSome := by
  intro l
  induction l with
  | nil => intro base r hr; cases hr
  | cons row rest ih =>
    intro base r hr hmatch
    unfold V20.market_find_aux
    by_cases h : pyLower row.className = target
    · simp [h]
    · simp only [if_neg h]
      cases hr with
      | head => exact absurd hmatch h
      | tail _ hmem => exact ih (base + 1) r hmem hmatch

/-- The find loop only answers indices of matching rows, and only the first:
relative to the numbering started at base, the answered position matches and
every earlier position does not. -/
theorem market_find_aux_spec (target : String) :
    ∀ (l : List V20.MarketEntry) (base i : Nat) (d : V20.MarketEntry),
      V20.market_find_aux target base l = some i →
      base ≤ i ∧ i - base < l.length
        ∧ pyLower (l.getD (i - base) d).className = target
        ∧ ∀ j, j < i - base → ¬ pyLower (l.getD j d).className = target := by
  intro l
  induction l with
  | nil => intro base i d h; simp [V20.market_find_aux] at h
  | cons row rest ih =>
    intro base i d h
    unfold V20.market_find_aux at h
    by_cases hm : pyLower row.className = target
    · rw [if_pos hm] at h
      have hi : i = base := by
        have := Option.some.inj h
        omega
      subst hi
      refine ⟨Nat.le_refl _, ?_, ?_, ?_⟩
      · simp
      · simpa using hm
      · intro j hj; omega
    · rw [if_neg hm] at h
      have := ih (base + 1) i d h
      obtain ⟨hle, hlt, hmatch, hfirst⟩ := this
      have hbase : base ≤ i := by omega
      refine ⟨hbase, ?_, ?_, ?_⟩
      · simp only [List.length_cons]; omega
      · have harith : i - base = (i - (base + 1)) + 1 := by omega
        rw [harith]
        simpa using hmatch
      · intro j hj
        cases j with
        | zero => simpa using hm
        | succ j' =>
          have : j' < i - (base + 1) := by omega
          have := hfirst j' this
          simpa using this

/-- C8: adding a classname that is already present among the market document's
Items (exact occurrence) is rejected as a no-op: the Items list returned is
the very same list, so its length and contents are unchanged and no entry was
merged or modified. -/
theorem c8_market_duplicate_noop (items : List V20.MarketEntry) (classname : String)
    (hdup : classname ∈ items.map (fun r => r.className))
    (minp_str maxp_str minst_str maxst_str : String) :
    V20.market_add_selected_from_types items classname
        minp_str maxp_str minst_str maxst_str = items := by
  obtain ⟨r, hr, hname⟩ := List.exists_of_mem_map hdup
  have hmatch : pyLower r.className = pyLower classname := by rw [hname]
  have hsome := market_find_aux_isSome (pyLower classname) items 0 r hr hmatch
  unfold V20.market_add_selected_from_types V20.market_find_index_by_class
  cases h : V20.market_find_aux (pyLower classname) 0 items with
  | none =>
    rw [h] at hsome
    cases hsome
  | some i => rfl

/-- C8 witness: a market holding "AKM"; adding "AKM" again leaves the Items
list unchanged. -/
theorem c8_market_duplicate_noop_witness :
    let e : V20.MarketEntry :=
      { className := "AKM", maxPriceThreshold := 10, minPriceThreshold := 5,
        sellPricePercent := -1, maxStockThreshold := 100, minStockThreshold := 0,
        quantityPercent := -1, spawnAttachments := [], variants := [] }
    V20.market_add_selected_from_types [e] "AKM" "5" "10" "0" "100" = [e] := by
  intro e
  exact c8_market_duplicate_noop [e] "AKM" (by decide) "5" "10" "0" "100"

/-- C10: the market lookup is case-insensitive and first-match. Whenever
_market_find_index_by_class answers index i, row i matches the target after
lowercasing both sides, no earlier row does, and consequently
market_add_selected_from_types rejects the addition with the Items list
unchanged, market_remove_selected deletes exactly row i, and
market_apply_edit (whose stripped Class box holds the same classname)
rewrites exactly row i. -/
theorem c10_market_case_insensitive (items : List V20.MarketEntry)
    (classname : String) (i : Nat) (d : V20.MarketEntry)
    (hfind : V20.market_find_index_by_class items classname = some i) :
    i < items.length
      ∧ pyLower (items.getD i d).className = pyLower classname
      ∧ (∀ j, j < i → ¬ pyLower (items.getD j d).className = pyLower classname)
      ∧ (∀ minp_str maxp_str minst_str maxst_str,
          V20.market_add_selected_from_types items classname
            minp_str maxp_str minst_str maxst_str = items)
      ∧ V20.market_remove_selected items classname = items.eraseIdx i
      ∧ (∀ class_str minp_str maxp_str minst_str maxst_str,
          pyStrip class_str = classname → classname ≠ "" →
          V20.market_apply_edit items class_str
              minp_str maxp_str minst_str maxst_str
            = items.set i
                { items.getD i d with
                    className := classname
                    minPriceThreshold := V20.safe_int minp_str 5
                    maxPriceThreshold := V20.safe_int maxp_str 10
                    minStockThreshold := V20.safe_int minst_str 0
                    maxStockThreshold := V20.safe_int maxst_str 100 }) := by
  have hspec := market_find_aux_spec (pyLower classname) items 0 i d hfind
  obtain ⟨_, hlt, hmatch, hfirst⟩ := hspec
  simp only [Nat.sub_zero] at hlt hmatch hfirst
  refine ⟨hlt, hmatch, hfirst, ?_, ?_, ?_⟩
  · intro a b c dd
    unfold V20.market_add_selected_from_types
    rw [hfind]
  · unfold V20.market_remove_selected
    rw [hfind]
  · intro cls a b c dd hstr hne
    unfold V20.market_apply_edit
    simp only
    rw [hstr, if_neg hne, hfind]
    have hget : items.get? i = some (items.getD i d) := by
      rw [List.getD_eq_getElem items d hlt]
      rw [List.get?_eq_getElem?]
      exact List.getElem?_eq_getElem hlt
    show (match items.get? i with
        | none => items
        | some row =>
          items.set i
            { row with
                className := classname
                minPriceThreshold := V20.safe_int a 5
                maxPriceThreshold := V20.safe_int b 10
                minStockThreshold := V20.safe_int c 0
                maxStockThreshold := V20.safe_int dd 100 })
      = items.set i
          { items.getD i d with
              className := classname
              minPriceThreshold := V20.safe_int a 5
              maxPriceThreshold := V20.safe_int b 10
              minStockThreshold := V20.safe_int c 0
              maxStockThreshold := V20.safe_int dd 100 }
    rw [hget]

/-- C10 witness: a market holding "M4A1"; the finder locates it for the query
"m4a1" despite the case difference, the add of "m4a1" is rejected unchanged,
the remove of "m4a1" deletes that first match, and the edit with Class box
"m4a1" rewrites that first match. -/
theorem c10_market_case_insensitive_witness :
    let e : V20.MarketEntry :=
      { className := "M4A1", maxPriceThreshold := 10, minPriceThreshold := 5,
        sellPricePercent := -1, maxStockThreshold := 100, minStockThreshold := 0,
        quantityPercent := -1, spawnAttachments := [], variants := [] }
    (0 : Nat) < [e].length
      ∧ pyLower ([e].getD 0 e).className = pyLower "m4a1"
      ∧ (∀ j, j < 0 → ¬ pyLower ([e].getD j e).className = pyLower "m4a1")
      ∧ (∀ minp_str maxp_str minst_str maxst_str,
          V20.market_add_selected_from_types [e] "m4a1"
            minp_str maxp_str minst_str maxst_str = [e])
      ∧ V20.market_remove_selected [e] "m4a1" = [e].eraseIdx 0
      ∧ V20.market_apply_edit [e] "m4a1" "6" "12" "1" "50"
          = [e].set 0
              { [e].getD 0 e with
                  className := "m4a1"
                  minPriceThreshold := V20.safe_int "6" 5
                  maxPriceThreshold := V20.safe_int "12" 10
                  minStockThreshold := V20.safe_int "1" 0
                  maxStockThreshold := V20.safe_int "50" 100 } := by
  intro e
  have h := c10_market_case_insensitive [e] "m4a1" 0 e (by decide)
  exact ⟨h.1, h.2.1, h.2.2.1, h.2.2.2.1, h.2.2.2.2.1,
    h.2.2.2.2.2 "m4a1" "6" "12" "1" "50" (by decide) (by decide)⟩

/-! ## Canonical sorted classname lists

Both variants maintain all_items as sorted(set(...), key=str.lower). This is
modelled by a canonical insertion sort whose key is the lowercased string,
with the string itself as a deterministic tie-break (Python leaves the order
of case-colliding duplicates to set iteration order; the model fixes it). -/

/-- The sort key order: by lowercased string, ties broken by the string
itself. A strict linear order on strings. -/
def ltKey (a b : String) : Prop :=
  pyLower a < pyLower b ∨ (pyLower a = pyLower b ∧ a < b)

instance instDecidableLtKey (a b : String) : Decidable (ltKey a b) := by
  unfold ltKey
  exact inferInstance

theorem ltKey_trans {a b c : String} (h1 : ltKey a b) (h2 : ltKey b c) : ltKey a c := by
  rcases h1 with h1 | ⟨h1e, h1l⟩ <;> rcases h2 with h2 | ⟨h2e, h2l⟩
  · exact Or.inl (lt_trans h1 h2)
  · exact Or.inl (h2e ▸ h1)
  · exact Or.inl (h1e ▸ h2)
  · exact Or.inr ⟨h1e.trans h2e, lt_trans h1l h2l⟩

theorem ltKey_irrefl (a : String) : ¬ ltKey a a := by
  intro h
  rcases h with h | ⟨_, h⟩
  · exact lt_irrefl _ h
  · exact lt_irrefl _ h

theorem ltKey_asymm {a b : String} (h : ltKey a b) : ¬ ltKey b a := by
  intro h2
  exact ltKey_irrefl a (ltKey_trans h h2)

theorem ltKey_ne {a b : String} (h : ltKey a b) : a ≠ b := by
  intro he
  subst he
  exact ltKey_irrefl a h

theorem ltKey_total {a b : String} (hne : a ≠ b) (h : ¬ ltKey a b) : ltKey b a := by
  rcases lt_trichotomy (pyLower a) (pyLower b) with hl | hl | hl
  · exact absurd (Or.inl hl) h
  · rcases lt_trichotomy a b with hs | hs | hs
    · exact absurd (Or.inr ⟨hl, hs⟩) h
    · exact absurd hs hne
    · exact Or.inr ⟨hl.symm, hs⟩
  · exact Or.inl hl

/-- Ordered insertion skipping an exact duplicate. -/
def sortedInsert (x : String) : List String → List String
  | [] => [x]
  | y :: ys =>
    if x = y then y :: ys
    else if ltKey x y then x :: y :: ys
    else y :: sortedInsert x ys

/-- sorted(set(l), key=str.lower): fold every element through ordered
dedup insertion. -/
def canonSort (l : List String) : List String :=
  l.foldl (fun acc x => sortedInsert x acc) []

theorem mem_sortedInsert {z x : String} :
    ∀ {l : List String}, z ∈ sortedInsert x l ↔ z = x ∨ z ∈ l := by
  intro l
  induction l with
  | nil => simp [sortedInsert]
  | cons y ys ih =>
    unfold sortedInsert
    by_cases hxy : x = y
    · subst hxy
      rw [if_pos rfl]
      simp only [List.mem_cons]
      tauto
    · rw [if_neg hxy]
      by_cases hlt : ltKey x y
      · rw [if_pos hlt]
        simp [List.mem_cons, or_assoc]
      · rw [if_neg hlt]
        simp only [List.mem_cons, ih]
        tauto

theorem pairwise_sortedInsert {x : String} :
    ∀ {l : List String}, l.Pairwise ltKey → (sortedInsert x l).Pairwise ltKey := by
  intro l
  induction l with
  | nil => intro _; simp [sortedInsert]
  | cons y ys ih =>
    intro hp
    rcases List.pairwise_cons.mp hp with ⟨hy, hys⟩
    unfold sortedInsert
    by_cases hxy : x = y
    · rw [if_pos hxy]; exact hp
    · rw [if_neg hxy]
      by_cases hlt : ltKey x y
      · rw [if_pos hlt]
        refine List.pairwise_cons.mpr ⟨?_, hp⟩
        intro z hz
        rcases List.mem_cons.mp hz with hz | hz
        · exact hz ▸ hlt
        · exact ltKey_trans hlt (hy z hz)
      · rw [if_neg hlt]
        refine List.pairwise_cons.mpr ⟨?_, ih hys⟩
        intro z hz
        rcases mem_sortedInsert.mp hz with hz | hz
        · exact hz ▸ ltKey_total hxy hlt
        · exact hy z hz

theorem sortedInsert_of_mem {x : String} :
    ∀ {l : List String}, l.Pairwise ltKey → x ∈ l → sortedInsert x l = l := by
  intro l
  induction l with
  | nil => intro _ h; cases h
  | cons y ys ih =>
    intro hp hmem
    rcases List.pairwise_cons.mp hp with ⟨hy, hys⟩
    unfold sortedInsert
    by_cases hxy : x = y
    · rw [if_pos hxy]
    · rw [if_neg hxy]
      have hx_ys : x ∈ ys := by
        rcases List.mem_cons.mp hmem with h | h
        · exact absurd h hxy
        · exact h
      have hyx : ltKey y x := hy x hx_ys
      rw [if_neg (ltKey_asymm hyx)]
      rw [ih hys hx_ys]

theorem mem_foldl_sortedInsert {z : String} :
    ∀ (l acc : List String),
      z ∈ l.foldl (fun acc x => sortedInsert x acc) acc ↔ z ∈ acc ∨ z ∈ l := by
  intro l
  induction l with
  | nil => intro acc; simp
  | cons x xs ih =>
    intro acc
    simp only [List.foldl_cons, ih, mem_sortedInsert, List.mem_cons]
    tauto

theorem pairwise_foldl_sortedInsert :
    ∀ (l acc : List String), acc.Pairwise ltKey →
      (l.foldl (fun acc x => sortedInsert x acc) acc).Pairwise ltKey := by
  intro l
  induction l with
  | nil => intro acc h; simpa using h
  | cons x xs ih =>
    intro acc h
    exact ih (sortedInsert x acc) (pairwise_sortedInsert h)

theorem pairwise_canonSort (l : List String) : (canonSort l).Pairwise ltKey :=
  pairwise_foldl_sortedInsert l [] (List.Pairwise.nil)

theorem mem_canonSort {z : String} {l : List String} :
    z ∈ canonSort l ↔ z ∈ l := by
  unfold canonSort
  rw [mem_foldl_sortedInsert]
  simp

theorem foldl_sortedInsert_cons {a : String} :
    ∀ (l acc : List String), (∀ x ∈ l, ltKey a x) →
      l.foldl (fun acc x => sortedInsert x acc) (a :: acc)
        = a :: l.foldl (fun acc x => sortedInsert x acc) acc := by
  intro l
  induction l with
  | nil => intro acc _; rfl
  | cons x xs ih =>
    intro acc h
    have hax : ltKey a x := h x (List.mem_cons_self x xs)
    have hne : x ≠ a := fun he => ltKey_ne hax he.symm
    simp only [List.foldl_cons]
    have hins : sortedInsert x (a :: acc) = a :: sortedInsert x acc := by
      show (if x = a then a :: acc
            else if ltKey x a then x :: a :: acc
            else a :: sortedInsert x acc)
          = a :: sortedInsert x acc
      rw [if_neg hne, if_neg (ltKey_asymm hax)]
    rw [hins]
    exact ih (sortedInsert x acc) (fun y hy => h y (List.mem_cons_of_mem x hy))

theorem canonSort_eq_self :
    ∀ {l : List String}, l.Pairwise ltKey → canonSort l = l := by
  intro l
  induction l with
  | nil => intro _; rfl
  | cons a rest ih =>
    intro hp
    rcases List.pairwise_cons.mp hp with ⟨ha, hrest⟩
    unfold canonSort
    simp only [List.foldl_cons]
    have h1 : sortedInsert a [] = [a] := rfl
    rw [h1]
    rw [foldl_sortedInsert_cons rest [] ha]
    exact congrArg (a :: ·) (ih hrest)

theorem foldl_sortedInsert_absorb :
    ∀ (n l : List String), l.Pairwise ltKey → (∀ x ∈ n, x ∈ l) →
      n.foldl (fun acc x => sortedInsert x acc) l = l := by
  intro n
  induction n with
  | nil => intro l _ _; rfl
  | cons x xs ih =>
    intro l hp hsub
    simp only [List.foldl_cons]
    rw [sortedInsert_of_mem hp (hsub x (List.mem_cons_self x xs))]
    exact ih l hp (fun y hy => hsub y (List.mem_cons_of_mem x hy))

/-- Re-sorting a canonical list extended by already-present elements gives the
canonical list back. -/
theorem canonSort_append_absorb (base n : List String)
    (hsub : ∀ x ∈ n, x ∈ canonSort base) :
    canonSort (canonSort base ++ n) = canonSort base := by
  unfold canonSort
  rw [List.foldl_append]
  have h1 : (canonSort base).foldl (fun acc x => sortedInsert x acc) []
      = canonSort base := canonSort_eq_self (pairwise_canonSort base)
  unfold canonSort at h1
  rw [h1]
  exact foldl_sortedInsert_absorb n (canonSort base) (pairwise_canonSort base) hsub

/-! ## C9: the reference catalog and folder ingestion

The catalog logic (_merge_types_files plus the folder entry points) is
line-for-line parallel in the two variants, differing only in that v1.8 stores
per-source classname lists sorted by load_types_xml while v2.0 stores them in
document order; the shared model is parametric in that preparation step and in
the metadata record type. The filesystem is the environment: a function from a
folder path to the XML files it contains, each file carrying its path, its
basename and the result of load_types_xml on it (none models a parse
exception, which both variants record only in a local error list shown once in
a batch warning). -/

/-- One XML file as the folder scan and load_types_xml see it. The entries are
the type elements in document order: classname plus its metadata record. -/
structure TypesFile (μ : Type) where
  path : String
  base : String
  parse : Option (List (String × μ))

/-- The catalog portion of the application state: all_items, item_meta,
source_to_items and types_files_loaded. Dicts are modelled as functions. -/
structure CatalogCore (μ : Type) where
  all_items : List String
  item_meta : String → Option μ
  source_to_items : String → Option (List String)
  types_files_loaded : List String

/-- Full catalog state: the core plus the list of folders added so far. -/
structure Catalog (μ : Type) where
  core : CatalogCore μ
  types_folders : List String

/-- The value the per-file metadata dict holds for key k: the last binding of
k among the file's type elements (within one file, a repeated classname
overwrites its metadata). -/
def lastBind {μ : Type} (entries : List (String × μ)) (k : String) : Option μ :=
  (entries.reverse.find? (fun kv => kv.1 == k)).map (fun kv => kv.2)

/-- The merge loop over a file's metadata dict, extensionally: for k, v in
meta.items(): if k not in item_meta: item_meta[k] = v. A key already present
keeps its first-seen record; a fresh key receives the file's record for it. -/
def mergeMeta {μ : Type} (im : String → Option μ) (entries : List (String × μ)) :
    String → Option μ :=
  fun k =>
    match im k with
    | some v => some v
    | none => lastBind entries k

/-- One iteration of the _merge_types_files loop for file f: on a parse
exception nothing but the local error list changes; on success
source_to_items[basename] is replaced, the path is appended to
types_files_loaded if new, and missing metadata keys are filled in. all_items
is only assigned after the loop. prep is the per-source list preparation:
canonSort in v1.8 (load_types_xml sorts there), the identity in v2.0. -/
def mergeOneFile {μ : Type} (prep : List String → List String)
    (st : CatalogCore μ) (f : TypesFile μ) : CatalogCore μ :=
  match f.parse with
  | none => st
  | some entries =>
    { all_items := st.all_items
      item_meta := mergeMeta st.item_meta entries
      source_to_items := fun b =>
        if b = f.base then some (prep (entries.map (fun kv => kv.1)))
        else st.source_to_items b
      types_files_loaded :=
        if f.path ∈ st.types_files_loaded then st.types_files_loaded
        else st.types_files_loaded ++ [f.path] }

/-- The classnames contributed by the successfully parsed files of a batch
(the updates merged_items receives inside the loop). -/
def newNames {μ : Type} (files : List (TypesFile μ)) : List String :=
  ((files.filterMap (fun f => f.parse)).map (fun entries => entries.map (fun kv => kv.1))).flatten

/-- Python _merge_types_files: the per-file loop followed by
all_items = sorted(set(all_items) | new names, key=str.lower). -/
def merge_types_files {μ : Type} (prep : List String → List String)
    (st : CatalogCore μ) (files : List (TypesFile μ)) : CatalogCore μ :=
  let st1 := files.foldl (mergeOneFile prep) st
  { st1 with all_items := canonSort (st.all_items ++ newNames files) }


namespace V18

/-- Python v1.8 add_types_folder: the folder is appended to types_folders
unconditionally (before the folder is even scanned); with no XML files inside,
a warning is shown and nothing else changes; otherwise the files are merged.
No already-known check is performed. -/
def add_types_folder {μ : Type} (fs : String → List (TypesFile μ))
    (st : Catalog μ) (folder : String) : Catalog μ :=
  let st1 : Catalog μ := { st with types_folders := st.types_folders ++ [folder] }
  if (fs folder).isEmpty then st1
  else { st1 with core := merge_types_files canonSort st1.core (fs folder) }

end V18

namespace V20

/-- Python v2.0 _load_types_folder_silent: an already-known folder returns
immediately; a folder with no XML files returns after an optional warning;
otherwise the folder is appended and its files merged. -/
def load_types_folder_silent {μ : Type} (fs : String → List (TypesFile μ))
    (st : Catalog μ) (folder : String) : Catalog μ :=
  if folder ∈ st.types_folders then st
  else if (fs folder).isEmpty then st
  else
    { core := merge_types_files id st.core (fs folder)
      types_folders := st.types_folders ++ [folder] }

end V20


theorem lastBind_isSome_of_mem {μ : Type} {entries : List (String × μ)} {k : String}
    (h : k ∈ entries.map (fun kv => kv.1)) : (lastBind entries k).isSome := by
  obtain ⟨kv, hkv, hk⟩ := List.exists_of_mem_map h
  have hmem : kv ∈ entries.reverse := List.mem_reverse.mpr hkv
  unfold lastBind
  cases hfind : (entries.reverse.find? (fun kv => kv.1 == k)) with
  | none =>
    have := List.find?_eq_none.mp hfind kv hmem
    simp only [beq_iff_eq] at this
    exact absurd hk this
  | some v => simp

theorem lastBind_eq_none_of_not_mem {μ : Type} {entries : List (String × μ)} {k : String}
    (h : k ∉ entries.map (fun kv => kv.1)) : lastBind entries k = none := by
  unfold lastBind
  rw [List.find?_eq_none.mpr]
  · rfl
  · intro kv hkv
    simp only [beq_iff_eq]
    intro he
    exact h (List.mem_map.mpr ⟨kv, List.mem_reverse.mp hkv, he⟩)

/-- Membership in types_files_loaded is preserved by a merge step. -/
theorem mem_tfl_mergeOneFile {μ : Type} {prep : List String → List String}
    {st : CatalogCore μ} {f : TypesFile μ} {p : String}
    (h : p ∈ st.types_files_loaded) :
    p ∈ (mergeOneFile prep st f).types_files_loaded := by
  unfold mergeOneFile
  cases f.parse with
  | none => exact h
  | some e =>
    by_cases hin : f.path ∈ st.types_files_loaded
    · simpa [hin] using h
    · simp only [if_neg hin]
      exact List.mem_append_left _ h

/-- A defined item_meta key stays defined through a merge step. -/
theorem isSome_meta_mergeOneFile {μ : Type} {prep : List String → List String}
    {st : CatalogCore μ} {f : TypesFile μ} {k : String}
    (h : (st.item_meta k).isSome) :
    ((mergeOneFile prep st f).item_meta k).isSome := by
  unfold mergeOneFile
  cases f.parse with
  | none => exact h
  | some e =>
    simp only
    unfold mergeMeta
    cases hm : st.item_meta k with
    | none => rw [hm] at h; cases h
    | some v => simp

theorem mem_tfl_foldl {μ : Type} (prep : List String → List String) {p : String} :
    ∀ (files : List (TypesFile μ)) (st : CatalogCore μ),
      p ∈ st.types_files_loaded →
      p ∈ (files.foldl (mergeOneFile prep) st).types_files_loaded := by
  intro files
  induction files with
  | nil => intro st h; exact h
  | cons g rest ih =>
    intro st h
    exact ih (mergeOneFile prep st g) (mem_tfl_mergeOneFile h)

theorem isSome_meta_foldl {μ : Type} (prep : List String → List String) {k : String} :
    ∀ (files : List (TypesFile μ)) (st : CatalogCore μ),
      (st.item_meta k).isSome →
      ((files.foldl (mergeOneFile prep) st).item_meta k).isSome := by
  intro files
  induction files with
  | nil => intro st h; exact h
  | cons g rest ih =>
    intro st h
    exact ih (mergeOneFile prep st g) (isSome_meta_mergeOneFile h)

/-- After a batch merge every successfully parsed file of the batch is
recorded in types_files_loaded. -/
theorem tfl_foldl_of_mem {μ : Type} (prep : List String → List String) :
    ∀ (files : List (TypesFile μ)) (st : CatalogCore μ) (f : TypesFile μ)
      (e : List (String × μ)), f ∈ files → f.parse = some e →
      f.path ∈ (files.foldl (mergeOneFile prep) st).types_files_loaded := by
  intro files
  induction files with
  | nil => intro st f e hf _; cases hf
  | cons g rest ih =>
    intro st f e hf he
    rcases List.mem_cons.mp hf with hfg | hfr
    · subst hfg
      rw [List.foldl_cons]
      apply mem_tfl_foldl
      unfold mergeOneFile
      rw [he]
      by_cases hin : f.path ∈ st.types_files_loaded
      · simp only [if_pos hin]
        exact hin
      · simp [hin]
    · exact ih (mergeOneFile prep st g) f e hfr he

/-- After a batch merge every classname of a successfully parsed file has a
metadata record. -/
theorem meta_foldl_of_mem {μ : Type} (prep : List String → List String) :
    ∀ (files : List (TypesFile μ)) (st : CatalogCore μ) (f : TypesFile μ)
      (e : List (String × μ)) (k : String),
      f ∈ files → f.parse = some e → k ∈ e.map (fun kv => kv.1) →
      ((files.foldl (mergeOneFile prep) st).item_meta k).isSome := by
  intro files
  induction files with
  | nil => intro st f e k hf _ _; cases hf
  | cons g rest ih =>
    intro st f e k hf he hk
    rcases List.mem_cons.mp hf with hfg | hfr
    · subst hfg
      rw [List.foldl_cons]
      apply isSome_meta_foldl
      unfold mergeOneFile
      rw [he]
      simp only
      unfold mergeMeta
      cases hm : st.item_meta k with
      | some v => simp
      | none => simpa using lastBind_isSome_of_mem hk
    · exact ih (mergeOneFile prep st g) f e k hfr he hk

/-- mergeMeta adds nothing when every key of the file is already defined. -/
theorem mergeMeta_eq_of_covered {μ : Type} {im : String → Option μ}
    {e : List (String × μ)}
    (h : ∀ k ∈ e.map (fun kv => kv.1), (im k).isSome) :
    mergeMeta im e = im := by
  funext k
  unfold mergeMeta
  cases hm : im k with
  | some v => rfl
  | none =>
    by_cases hk : k ∈ e.map (fun kv => kv.1)
    · have := h k hk
      rw [hm] at this
      cases this
    · exact lastBind_eq_none_of_not_mem hk

/-- A batch merge appends nothing to types_files_loaded when every
successfully parsed path of the batch is already recorded. -/
theorem tfl_foldl_eq {μ : Type} (prep : List String → List String) :
    ∀ (files : List (TypesFile μ)) (st : CatalogCore μ),
      (∀ f ∈ files, ∀ e, f.parse = some e → f.path ∈ st.types_files_loaded) →
      (files.foldl (mergeOneFile prep) st).types_files_loaded
        = st.types_files_loaded := by
  intro files
  induction files with
  | nil => intro st _; rfl
  | cons g rest ih =>
    intro st h
    have hstep : (mergeOneFile prep st g).types_files_loaded
        = st.types_files_loaded := by
      unfold mergeOneFile
      cases hp : g.parse with
      | none => rfl
      | some e =>
        simp only
        exact if_pos (h g (List.mem_cons_self g rest) e hp)
    rw [List.foldl_cons]
    have h2 : ∀ f ∈ rest, ∀ e, f.parse = some e →
        f.path ∈ (mergeOneFile prep st g).types_files_loaded := by
      intro f hf e he
      rw [hstep]
      exact h f (List.mem_cons_of_mem g hf) e he
    rw [ih (mergeOneFile prep st g) h2, hstep]

/-- A batch merge changes no metadata when every classname of the batch
already has a record. -/
theorem meta_foldl_eq {μ : Type} (prep : List String → List String) :
    ∀ (files : List (TypesFile μ)) (st : CatalogCore μ),
      (∀ f ∈ files, ∀ e, f.parse = some e →
        ∀ k ∈ e.map (fun kv => kv.1), (st.item_meta k).isSome) →
      (files.foldl (mergeOneFile prep) st).item_meta = st.item_meta := by
  intro files
  induction files with
  | nil => intro st _; rfl
  | cons g rest ih =>
    intro st h
    have hstep : (mergeOneFile prep st g).item_meta = st.item_meta := by
      unfold mergeOneFile
      cases hp : g.parse with
      | none => rfl
      | some e =>
        simp only
        exact mergeMeta_eq_of_covered (h g (List.mem_cons_self g rest) e hp)
    rw [List.foldl_cons]
    have h2 : ∀ f ∈ rest, ∀ e, f.parse = some e →
        ∀ k ∈ e.map (fun kv => kv.1),
          ((mergeOneFile prep st g).item_meta k).isSome := by
      intro f hf e he k hk
      rw [hstep]
      exact h f (List.mem_cons_of_mem g hf) e he k hk
    rw [ih (mergeOneFile prep st g) h2, hstep]

/-- The per-source override a batch imposes on basename b: the entries of the
last successfully parsed file of the batch whose basename is b, if any. Later
files overwrite earlier ones with the same basename, mirroring the repeated
source_to_items[src] assignment in the loop. -/
def srcAfter {μ : Type} : List (TypesFile μ) → String → Option (List (String × μ))
  | [], _ => none
  | g :: rest, b =>
    match srcAfter rest b with
    | some e => some e
    | none =>
      match g.parse with
      | some e => if g.base = b then some e else none
      | none => none

/-- The per-source index after a batch merge: each basename either carries the
prepared classname list of the last parsed file with that basename, or is
untouched. -/
theorem source_foldl_spec {μ : Type} (prep : List String → List String) :
    ∀ (files : List (TypesFile μ)) (st : CatalogCore μ) (b : String),
      (files.foldl (mergeOneFile prep) st).source_to_items b
        = (match srcAfter files b with
            | some e => some (prep (e.map (fun kv => kv.1)))
            | none => st.source_to_items b) := by
  intro files
  induction files with
  | nil => intro st b; rfl
  | cons g rest ih =>
    intro st b
    rw [List.foldl_cons]
    rw [ih (mergeOneFile prep st g) b]
    cases hsa : srcAfter rest b with
    | some e =>
      have hg2 : srcAfter (g :: rest) b = some e := by
        show (match srcAfter rest b with
              | some e => some e
              | none =>
                match g.parse with
                | some e => if g.base = b then some e else none
                | none => none) = some e
        rw [hsa]
      rw [hg2]
    | none =>
      cases hp : g.parse with
      | none =>
        have hg2 : srcAfter (g :: rest) b = none := by
          simp [srcAfter, hsa, hp]
        rw [hg2]
        show (mergeOneFile prep st g).source_to_items b = st.source_to_items b
        unfold mergeOneFile
        rw [hp]
      | some e =>
        have hmerge : (mergeOneFile prep st g).source_to_items b
            = (if b = g.base then some (prep (e.map (fun kv => kv.1)))
               else st.source_to_items b) := by
          unfold mergeOneFile
          rw [hp]
        by_cases hb : g.base = b
        · have hg2 : srcAfter (g :: rest) b = some e := by
            simp [srcAfter, hsa, hp, hb]
          rw [hg2]
          show (mergeOneFile prep st g).source_to_items b
              = some (prep (e.map (fun kv => kv.1)))
          have hb2 : b = g.base := hb.symm
          rw [hmerge, if_pos hb2]
        · have hg2 : srcAfter (g :: rest) b = none := by
            simp [srcAfter, hsa, hp, hb]
          rw [hg2]
          show (mergeOneFile prep st g).source_to_items b = st.source_to_items b
          have hb2 : ¬ b = g.base := fun h => hb h.symm
          rw [hmerge, if_neg hb2]

/-- Two catalog cores with equal components are equal. -/
theorem catalogCore_eq_of_components {μ : Type} {a b : CatalogCore μ}
    (h1 : a.all_items = b.all_items) (h2 : a.item_meta = b.item_meta)
    (h3 : a.source_to_items = b.source_to_items)
    (h4 : a.types_files_loaded = b.types_files_loaded) : a = b := by
  cases a
  cases b
  simp only at h1 h2 h3 h4
  subst h1
  subst h2
  subst h3
  subst h4
  rfl

/-- Merging the same batch of files twice changes nothing the second time:
the loaded-file list and metadata are saturated after the first pass, the
per-source index replays the same last-basename-wins assignments, and the
item set re-sorts to itself. -/
theorem merge_types_files_idem {μ : Type} (prep : List String → List String)
    (st : CatalogCore μ) (files : List (TypesFile μ)) :
    merge_types_files prep (merge_types_files prep st files) files
      = merge_types_files prep st files := by
  set c1 := merge_types_files prep st files with hc1
  have hc1_tfl : c1.types_files_loaded
      = (files.foldl (mergeOneFile prep) st).types_files_loaded := rfl
  have hc1_src : c1.source_to_items
      = (files.foldl (mergeOneFile prep) st).source_to_items := rfl
  have hc1_meta : c1.item_meta
      = (files.foldl (mergeOneFile prep) st).item_meta := rfl
  have hc1_all : c1.all_items = canonSort (st.all_items ++ newNames files) := rfl
  have h_tfl : (files.foldl (mergeOneFile prep) c1).types_files_loaded
      = c1.types_files_loaded := by
    apply tfl_foldl_eq
    intro f hf e he
    rw [hc1_tfl]
    exact tfl_foldl_of_mem prep files st f e hf he
  have h_meta : (files.foldl (mergeOneFile prep) c1).item_meta = c1.item_meta := by
    apply meta_foldl_eq
    intro f hf e he k hk
    rw [hc1_meta]
    exact meta_foldl_of_mem prep files st f e k hf he hk
  have h_src : (files.foldl (mergeOneFile prep) c1).source_to_items
      = c1.source_to_items := by
    funext b
    rw [source_foldl_spec prep files c1 b]
    cases hsa : srcAfter files b with
    | some e => rw [hc1_src, source_foldl_spec prep files st b, hsa]
    | none => rfl
  have h_all : canonSort (c1.all_items ++ newNames files) = c1.all_items := by
    rw [hc1_all]
    exact canonSort_append_absorb (st.all_items ++ newNames files) (newNames files)
      (fun x hx => mem_canonSort.mpr (List.mem_append_right _ hx))
  exact catalogCore_eq_of_components h_all h_meta h_src h_tfl

/-- C9 counterexample: in v1.8, re-adding the already-ingested folder "F" is
not a no-op: the folder is appended to types_folders again, so the list of
known folders changes from one entry to two. -/
theorem c9_counterexample :
    let file : TypesFile Unit :=
      { path := "F/types.xml", base := "types.xml", parse := some [("AKM", ())] }
    let fs : String → List (TypesFile Unit) := fun p => if p = "F" then [file] else []
    let st0 : Catalog Unit :=
      { core := { all_items := [], item_meta := fun _ => none,
                  source_to_items := fun _ => none, types_files_loaded := [] }
        types_folders := [] }
    let st1 := V18.add_types_folder fs st0 "F"
    st1.types_folders = ["F"]
      ∧ (V18.add_types_folder fs st1 "F").types_folders = ["F", "F"] := by
  exact ⟨rfl, rfl⟩

/-- C9 (amended): in v2.0, _load_types_folder_silent on an already-known
folder path returns immediately and the whole state (catalog and folder list)
is unchanged. In v1.8, re-ingesting a folder leaves the item set, the
per-source index, the metadata and the loaded-file list unchanged, but the
folder is appended to the list of known folders a second time. -/
theorem c9_reingest_idempotent {μ : Type} (fs : String → List (TypesFile μ))
    (st : Catalog μ) (folder : String) (hknown : folder ∈ st.types_folders)
    (st0 : Catalog μ) :
    V20.load_types_folder_silent fs st folder = st
      ∧ (V18.add_types_folder fs (V18.add_types_folder fs st0 folder) folder).core
          = (V18.add_types_folder fs st0 folder).core
      ∧ (V18.add_types_folder fs (V18.add_types_folder fs st0 folder) folder).types_folders
          = (V18.add_types_folder fs st0 folder).types_folders ++ [folder] := by
  refine ⟨?_, ?_, ?_⟩
  · unfold V20.load_types_folder_silent
    rw [if_pos hknown]
  · by_cases he : (fs folder).isEmpty
    · simp [V18.add_types_folder, he]
    · simp only [V18.add_types_folder, if_neg he]
      exact merge_types_files_idem canonSort st0.core (fs folder)
  · by_cases he : (fs folder).isEmpty <;>
      simp [V18.add_types_folder, he]

/-- C9 witness: a concrete folder holding two files that are both named
types.xml (in different subfolders, the typical layout). After one v1.8
ingestion the v2.0 guard recognises the folder and returns the state
unchanged, and a second v1.8 ingestion changes nothing but duplicates the
folder list entry. -/
theorem c9_reingest_idempotent_witness :
    let fileA : TypesFile Unit :=
      { path := "F/a/types.xml", base := "types.xml", parse := some [("AKM", ())] }
    let fileB : TypesFile Unit :=
      { path := "F/b/types.xml", base := "types.xml", parse := some [("M4A1", ())] }
    let fs : String → List (TypesFile Unit) :=
      fun p => if p = "F" then [fileA, fileB] else []
    let st0 : Catalog Unit :=
      { core := { all_items := [], item_meta := fun _ => none,
                  source_to_items := fun _ => none, types_files_loaded := [] }
        types_folders := [] }
    let st1 := V18.add_types_folder fs st0 "F"
    V20.load_types_folder_silent fs st1 "F" = st1
      ∧ (V18.add_types_folder fs (V18.add_types_folder fs st0 "F") "F").core
          = (V18.add_types_folder fs st0 "F").core
      ∧ (V18.add_types_folder fs (V18.add_types_folder fs st0 "F") "F").types_folders
          = (V18.add_types_folder fs st0 "F").types_folders ++ ["F"] := by
  intro fileA fileB fs st0 st1
  exact c9_reingest_idempotent fs st1 "F" (by decide) st0
